import Mathlib

/-!
Shallow embedding of `src/recycle_from_bin.py` (a Python 2 tool that restores
files from a Windows Recycle Bin directory tree) and proofs about it.

Modelling conventions:
* Python 2 byte strings (`str`) are `List Nat`, one byte value per element.
* The host is a Unix system whose filesystem encoding is UTF-8 (the tool's
  primary target; `get_filesystem_encoding` resolves to UTF-8 there), so
  `maybe_encode_pathname` is the UTF-8 encoder.
* Python floats are modelled by exact unnormalised rationals `Flt`; every
  arithmetic operation the program performs on timestamps is exact on the
  reference values used in the claims.
* The filesystem is an association list from pathname to node; `denied`
  nodes model paths on which `os.lstat` fails with an error other than
  ENOENT (e.g. EACCES).
-/

set_option maxRecDepth 100000

namespace RecycleFromBin

/-- Byte strings: the model of Python 2 `str` values. -/
abbrev BStr := List Nat

/-- Bytes of an ASCII string literal (used to write byte-string constants). -/
def strB (s : String) : BStr := s.data.map Char.toNat

/-- Exact rational standing in for a Python float: `num / den`.  All values
built by the program have a positive denominator. -/
structure Flt where
  num : Int
  den : Nat
  deriving DecidableEq

/-- Embed a natural number literal as a float. -/
def Flt.ofNat (n : Nat) : Flt := ⟨n, 1⟩

/-- Exact division, mirroring Python `/` on floats (the program only divides
by the positive constant `WINDOWS_TICK`). -/
def Flt.div (x y : Flt) : Flt :=
  if y.num < 0 then ⟨-(x.num * y.den), x.den * y.num.natAbs⟩
  else ⟨x.num * y.den, x.den * y.num.natAbs⟩

/-- Exact subtraction, mirroring Python `-` on floats. -/
def Flt.sub (x y : Flt) : Flt := ⟨x.num * y.den - y.num * x.den, x.den * y.den⟩

/-- Comparison `x < y` (correct for the positive denominators the program
produces), mirroring Python `<` on floats. -/
def Flt.blt (x y : Flt) : Bool := x.num * y.den < y.num * x.den

/-- The rational value denoted by a `Flt`. -/
def Flt.toRat (x : Flt) : ℚ := (x.num : ℚ) / (x.den : ℚ)

/-- Little-endian value of a byte string (`struct.unpack('<Q'/'<L', ...)`). -/
def leNat : BStr → Nat
  | [] => 0
  | b :: rest => b % 256 + 256 * leNat rest

/-- `k`-byte little-endian encoding of `v` (used to build test records). -/
def leBytes : Nat → Nat → BStr
  | 0, _ => []
  | k + 1, v => v % 256 :: leBytes k (v / 256)

/-- UTF-16LE decoding into a list of 16-bit code units.  Mirrors the Python 2
narrow-build `str.decode('utf-16le')`: an odd byte count fails, and surrogate
code units are kept as they are. -/
def utf16leDecode : BStr → Option (List Nat)
  | [] => some []
  | [_] => none
  | lo :: hi :: rest => (utf16leDecode rest).map (fun us => (lo % 256 + 256 * (hi % 256)) :: us)

/-- UTF-8 encoding of one UTF-16 code unit (always < 0x10000, so at most three
bytes).  Mirrors the Python 2 narrow-build UTF-8 encoder on BMP text; like
that encoder it never fails.  (Python 2 additionally packs a well-formed
surrogate pair into one four-byte sequence; the pathnames the claims concern
are ASCII, where the two encoders agree byte for byte.) -/
def utf8EncodeUnit (u : Nat) : BStr :=
  if u < 128 then [u]
  else if u < 2048 then [192 + u / 64, 128 + u % 64]
  else [224 + u / 4096, 128 + u / 64 % 64, 128 + u % 64]

/-- UTF-8 encoding of a code-unit sequence (`unicode.encode('utf-8')` under
`maybe_encode_pathname`). -/
def utf8Encode (us : List Nat) : BStr := (us.map utf8EncodeUnit).flatten

/-- Index of the last occurrence of byte `c` in `l` (Python `str.rfind`). -/
def rlastIdx (c : Nat) (l : BStr) : Option Nat :=
  (l.reverse.findIdx? (fun b => b = c)).map (fun i => l.length - 1 - i)

/-- `os.path.basename` (posixpath): everything after the last slash. -/
def basenameP (p : BStr) : BStr := (p.reverse.takeWhile (fun b => b ≠ 47)).reverse

/-- `os.path.dirname` (posixpath): everything up to the last slash, with
trailing slashes stripped unless the head is all slashes. -/
def dirnameP (p : BStr) : BStr :=
  let head := p.take (match rlastIdx 47 p with | none => 0 | some i => i + 1)
  if head ≠ [] ∧ ¬ (head.all (fun b => b = 47)) then
    (head.reverse.dropWhile (fun b => b = 47)).reverse
  else head

/-- Two-argument `os.path.join` (posixpath): an absolute second argument
replaces the first; otherwise a single slash separates them. -/
def joinP (a b : BStr) : BStr :=
  if b.head? = some 47 then b
  else if a = [] ∨ a.getLast? = some 47 then a ++ b
  else a ++ 47 :: b

/-- `os.path.join(*components)` for a non-empty component list. -/
def joinListP : List BStr → BStr
  | [] => []
  | x :: xs => xs.foldl joinP x

/-- `os.path.splitext` (posixpath): split at the last dot of the basename,
unless every character of the basename before that dot is itself a dot. -/
def splitextP (p : BStr) : BStr × BStr :=
  let startIdx := match rlastIdx 47 p with | none => 0 | some si => si + 1
  match rlastIdx 46 p with
  | none => (p, [])
  | some di =>
    if startIdx ≤ di then
      if ((p.take di).drop startIdx).all (fun b => b = 46) then (p, [])
      else (p.take di, p.drop di)
    else (p, [])

/-- `str.startswith`. -/
def startsB (l pre : BStr) : Bool := l.take pre.length = pre

/-- Python 2 `str.isalpha` on one byte in the C locale: ASCII letters only. -/
def isAlphaByte (c : Nat) : Bool := (65 ≤ c ∧ c ≤ 90) ∨ (97 ≤ c ∧ c ≤ 122)

/-- Python 2 `str.lower` on one byte in the C locale. -/
def toLowerByte (c : Nat) : Nat := if 65 ≤ c ∧ c ≤ 90 then c + 32 else c

/-! ## The metadata decoder (`parse_recycle_bin_i_file`) -/

/-- The failure modes of the modelled OS filesystem primitives (`OSError`
values, distinguished by errno where the program could observe it). -/
inductive OSErr
  | notFound          -- ENOENT
  | permissionDenied  -- EACCES (or any lstat failure other than ENOENT)
  | alreadyExists     -- EEXIST
  | isDirectory       -- EISDIR
  | other
  deriving DecidableEq

/-- The distinct `ValueError` messages raised by `parse_recycle_bin_i_file`
(the spec's `FormatError` cases), one constructor per message string. -/
inductive FormatMsg
  | eofHeader              -- 'EOF in Recycle Bin $I file header.'
  | eofPathnameSize        -- 'EOF in deleted_pathname size.'
  | pathnameTooLong        -- 'deleted_pathname too long.'
  | badVersion             -- 'Bad Recycle Bin $I signature: version=%d'
  | badUtf16               -- 'Bad UTF-16LE pathname: %r'
  | missingNul             -- 'Missing trailing NUL in deleted_pathname.'
  | tooShort               -- 'deleted_pathame too short: %r'
  | badDriveLetter         -- 'Bad drive letter in deleted_pathname: %r'
  | missingDriveSeparator  -- 'Missing drive separator in deleted_pathname: %r'
  deriving DecidableEq

/-- Errors that can escape the per-entry processing: decoder `ValueError`s,
the `ValueError` for a non-`$I` argument, `IOError` from `open`, uncaught
`OSError` from a mutating filesystem call, and exhaustion of the fuel that
makes the model's loops total. -/
inductive Err
  | format (m : FormatMsg)
  | expectedIPathname      -- 'Expected Recycle Bin $I pathname: %s'
  | ioErr                  -- IOError from open() on the $I file
  | osErr (e : OSErr)
  | fuelExhausted
  deriving DecidableEq

/-- Header and version-dependent field extraction: lines 94-109 of the
source.  Returns `(size, deletion_filetime, raw pathname field bytes)`.
`f.read(n)` at end of file returns the bytes that are present, which is what
`List.take` does; only the reads the source explicitly length-checks are
checked here. -/
def read_pathname_field (bs : BStr) : Except Err (Nat × Nat × BStr) :=
  let data := bs.take 24
  if data.length = 24 then
    let version := leNat (data.take 8)
    let size := leNat ((data.drop 8).take 8)
    let deletion_filetime := leNat (data.drop 16)
    let rest := bs.drop 24
    if version = 1 then .ok (size, deletion_filetime, rest.take 520)
    else if version = 2 then
      let data4 := rest.take 4
      if data4.length ≠ 4 then .error (.format .eofPathnameSize)
      else if leNat data4 > 4096 then .error (.format .pathnameTooLong)
      else .ok (size, deletion_filetime, (rest.drop 4).take (leNat data4 * 2))
    else .error (.format .badVersion)
  else .error (.format .eofHeader)

/-- `deleted_pathname[:deleted_pathname.find('\0')]`, line 117-120:
truncation at the first NUL byte; `none` when there is no NUL. -/
def truncate_at_nul (enc : BStr) : Option BStr :=
  (enc.findIdx? (fun b => b = 0)).map (fun i => enc.take i)

/-- `filter(None, (deleted_pathname[0].lower() + deleted_pathname[2:]).split('\\'))`
from line 127-128 of the source: the non-empty backslash-delimited segments
of the truncated pathname after lower-casing the drive letter and dropping
the colon. -/
def backslash_segments (t : BStr) : List BStr :=
  ((toLowerByte (t.headD 0) :: t.drop 2).splitOn 92).filter (fun s => s ≠ [])

/-- Lines 121-128 of the source: the length / drive-letter / drive-separator
checks on the NUL-truncated pathname, then the reconstruction
`os.path.join(*filter(None, (dp[0].lower() + dp[2:]).split('\\')))`. -/
def check_deleted_pathname (t : BStr) : Except Err BStr :=
  if t.length < 3 then .error (.format .tooShort)
  else if ¬ isAlphaByte (t.headD 0) then .error (.format .badDriveLetter)
  else if (t.drop 1).take 2 ≠ [58, 92] then .error (.format .missingDriveSeparator)
  else .ok (joinListP (backslash_segments t))

/-- Lines 112-128 of the source: UTF-16LE decoding, re-encoding into the host
filesystem encoding (UTF-8 here), NUL truncation, validation, and path
reconstruction applied to the raw pathname field. -/
def decode_check_pathname (raw : BStr) : Except Err BStr :=
  match utf16leDecode raw with
  | none => .error (.format .badUtf16)
  | some units =>
    match truncate_at_nul (utf8Encode units) with
    | none => .error (.format .missingNul)
    | some t => check_deleted_pathname t

/-- `parse_recycle_bin_i_file`, as a pure function of the `$I` file's bytes
(the source opens the file by name and reads it; the orchestrator model
below does the reading).  Returns `(size, deletion_filetime, deleted_pathname)`. -/
def parse_recycle_bin_i_file (bs : BStr) : Except Err (Nat × Nat × BStr) :=
  match read_pathname_field bs with
  | .error e => .error e
  | .ok (size, deletion_filetime, raw) =>
    match decode_check_pathname raw with
    | .error e => .error e
    | .ok deleted_pathname => .ok (size, deletion_filetime, deleted_pathname)

/-- Diagnostic projection of the decoder pipeline: the NUL-truncated,
host-encoded pathname an input decodes through (when it gets that far). -/
def decode_truncated (bs : BStr) : Option BStr :=
  match read_pathname_field bs with
  | .error _ => none
  | .ok (_, _, raw) =>
    match utf16leDecode raw with
    | none => none
    | some units => truncate_at_nul (utf8Encode units)

/-- `filetime_to_timestamp_float`, lines 132-137 of the source:
`(filetime / WINDOWS_TICK) - SEC_TO_UNIX_EPOCH` in float arithmetic,
modelled exactly. -/
def filetime_to_timestamp_float (filetime : Nat) : Flt :=
  (Flt.ofNat filetime).div (Flt.ofNat 10000000) |>.sub (Flt.ofNat 11644473600)

/-- Decidable equality for `Except`, so that concrete decoder results can be
settled by `decide`. -/
instance {ε α : Type} [DecidableEq ε] [DecidableEq α] : DecidableEq (Except ε α) := fun a b =>
  match a, b with
  | .ok x, .ok y =>
    if h : x = y then .isTrue (by rw [h]) else .isFalse (fun c => h (Except.ok.inj c))
  | .error x, .error y =>
    if h : x = y then .isTrue (by rw [h]) else .isFalse (fun c => h (Except.error.inj c))
  | .ok _, .error _ => .isFalse (fun c => Except.noConfusion c)
  | .error _, .ok _ => .isFalse (fun c => Except.noConfusion c)

/-! ## The filesystem model -/

/-- A filesystem node.  `file` carries its content bytes (so `st_size` is the
content length and the `$I` bytes can be read); `dir` and `special`
(symlink / device / socket, anything neither regular nor directory) carry
timestamps only.  A `denied` node is a path on which `os.lstat` fails with an
error other than ENOENT, modelling non-not-found OS failures. -/
inductive Node
  | file (content : BStr) (mtime atime : Flt)
  | dir (mtime atime : Flt)
  | special (mtime atime : Flt)
  | denied
  deriving DecidableEq

/-- A filesystem: pathnames mapped to nodes (first binding wins). -/
abbrev FS := List (BStr × Node)

def lookupFS : FS → BStr → Option Node
  | [], _ => none
  | (q, n) :: rest, p => if q = p then some n else lookupFS rest p

def eraseFS (fs : FS) (p : BStr) : FS := fs.filter (fun e => e.1 ≠ p)

def insertFS (fs : FS) (p : BStr) (n : Node) : FS := (p, n) :: eraseFS fs p

/-- `os.lstat`: ENOENT on a missing path, a non-ENOENT failure on a `denied`
node, otherwise the node itself serves as the stat result. -/
def lstatFS (fs : FS) (p : BStr) : Except OSErr Node :=
  match lookupFS fs p with
  | none => .error .notFound
  | some .denied => .error .permissionDenied
  | some n => .ok n

/-- `stat.S_ISREG(stat_obj.st_mode)`. -/
def S_ISREG : Node → Bool
  | .file _ _ _ => true
  | _ => false

/-- `stat.S_ISDIR(stat_obj.st_mode)`. -/
def S_ISDIR : Node → Bool
  | .dir _ _ => true
  | _ => false

/-- `stat_obj.st_size` (the model only consults it on regular files). -/
def st_size : Node → Nat
  | .file c _ _ => c.length
  | _ => 0

def st_mtime : Node → Flt
  | .file _ m _ => m
  | .dir m _ => m
  | .special m _ => m
  | .denied => ⟨0, 1⟩

def st_atime : Node → Flt
  | .file _ _ a => a
  | .dir _ a => a
  | .special _ a => a
  | .denied => ⟨0, 1⟩

/-- `os.path.exists`: false on a missing path and on any stat failure. -/
def existsFS (fs : FS) (p : BStr) : Bool :=
  match lookupFS fs p with
  | some .denied => false
  | some _ => true
  | none => false

/-- `os.path.isdir`. -/
def isdirFS (fs : FS) (p : BStr) : Bool :=
  match lookupFS fs p with
  | some (.dir _ _) => true
  | _ => false

/-- `open(pathname, 'rb')` followed by a full read: `IOError` (which the
source never catches) unless the path is a readable regular file. -/
def readFileFS (fs : FS) (p : BStr) : Except Err BStr :=
  match lookupFS fs p with
  | some (.file c _ _) => .ok c
  | _ => .error .ioErr

/-- `os.utime(p, (atimeNew, mtimeNew))`. -/
def utimeFS (fs : FS) (p : BStr) (atimeNew mtimeNew : Flt) : Except OSErr FS :=
  match lookupFS fs p with
  | none => .error .notFound
  | some .denied => .error .permissionDenied
  | some (.file c _ _) => .ok (insertFS fs p (.file c mtimeNew atimeNew))
  | some (.dir _ _) => .ok (insertFS fs p (.dir mtimeNew atimeNew))
  | some (.special _ _) => .ok (insertFS fs p (.special mtimeNew atimeNew))

/-- `os.mkdir`: fails if the path exists in any form, or if its parent is
neither the implicit root/current directory nor an existing directory.
Created directories get zero timestamps (never consulted afterwards). -/
def mkdirFS (fs : FS) (p : BStr) : Except OSErr FS :=
  match lookupFS fs p with
  | some _ => .error .alreadyExists
  | none =>
    if dirnameP p = [] ∨ dirnameP p = p ∨ isdirFS fs (dirnameP p) then
      .ok (insertFS fs p (.dir ⟨0, 1⟩ ⟨0, 1⟩))
    else .error .notFound

/-- `os.makedirs`, following the Python 2 implementation: split off the last
component, recurse on the head when it does not yet exist (tolerating EEXIST
from the recursive call), then `mkdir` the full path.  The fuel argument
makes the recursion structural; `name.length + 1` always suffices because
`dirnameP` shortens the path. -/
def makedirsAux (fs : FS) : Nat → BStr → Except OSErr FS
  | 0, _ => .error .other
  | fuel + 1, name =>
    let split0 : BStr × BStr := (dirnameP name, basenameP name)
    let hd := if split0.2 = [] then dirnameP split0.1 else split0.1
    let tl := if split0.2 = [] then basenameP split0.1 else split0.2
    if hd ≠ [] ∧ tl ≠ [] ∧ existsFS fs hd = false then
      match
        (match makedirsAux fs fuel hd with
         | .error .alreadyExists => .ok fs
         | r => r : Except OSErr FS)
      with
      | .error e => .error e
      | .ok fs1 => if tl = [46] then .ok fs1 else mkdirFS fs1 name
    else mkdirFS fs name

def makedirsFS (fs : FS) (name : BStr) : Except OSErr FS :=
  makedirsAux fs (name.length + 1) name

/-- `os.rename`: POSIX semantics restricted to what the tool can reach — the
source must be stat-able, the destination's parent must be a directory (or
the implicit root), and an existing destination is overwritten unless it is a
directory. -/
def renameFS (fs : FS) (src dst : BStr) : Except OSErr FS :=
  match lookupFS fs src with
  | none => .error .notFound
  | some .denied => .error .permissionDenied
  | some n =>
    match lookupFS fs dst with
    | some (.dir _ _) => .error .isDirectory
    | some .denied => .error .permissionDenied
    | _ =>
      if dirnameP dst = [] ∨ dirnameP dst = dst ∨ isdirFS fs (dirnameP dst) then
        .ok (insertFS (eraseFS fs src) dst n)
      else .error .notFound

/-- `os.remove`: unlinks files and special nodes, fails on directories,
missing paths and denied paths. -/
def removeFS (fs : FS) (p : BStr) : Except OSErr FS :=
  match lookupFS fs p with
  | some (.file _ _ _) => .ok (eraseFS fs p)
  | some (.special _ _) => .ok (eraseFS fs p)
  | some (.dir _ _) => .error .isDirectory
  | some .denied => .error .permissionDenied
  | none => .error .notFound

/-- `os.listdir`: the basenames of the direct children of `p`. -/
def listdirFS (fs : FS) (p : BStr) : List BStr :=
  fs.filterMap (fun e => if dirnameP e.1 = p ∧ e.1 ≠ p then some (basenameP e.1) else none)

/-- Lexicographic byte-string order (Python 2 `str` comparison). -/
def lexLe : BStr → BStr → Bool
  | [], _ => true
  | _ :: _, [] => false
  | a :: as, b :: bs => if a < b then true else if b < a then false else lexLe as bs

def insertSorted (x : BStr) : List BStr → List BStr
  | [] => [x]
  | y :: ys => if lexLe x y then x :: y :: ys else y :: insertSorted x ys

/-- `sorted(...)` on directory entries. -/
def sortB (l : List BStr) : List BStr := l.foldr insertSorted []

/-! ## The restore orchestrator -/

/-- Result of a run: normal return, or a propagating uncaught exception. -/
inductive RRes
  | ok
  | err (e : Err)
  deriving DecidableEq

/-- The observable side effects of a run: the filesystem mutations, in
order.  `utimed`, `renamed` and `removed` are recorded only when the
corresponding OS call succeeded. -/
inductive Event
  | utimed (p : BStr)
  | madeDirs (p : BStr)
  | renamed (src dst : BStr)
  | removed (p : BStr)
  deriving DecidableEq

/-- Decimal digits of `i` as bytes (`'%d' % i`); fuel-structural. -/
def natToDecAux : Nat → Nat → BStr
  | 0, _ => []
  | fuel + 1, n => if n < 10 then [48 + n] else natToDecAux fuel (n / 10) ++ [48 + n % 10]

def natToDec (n : Nat) : BStr := natToDecAux (n + 1) n

/-- The candidate `'%s-%d%s' % (prefix, i, ext)` of the collision loop. -/
def gen_restore_pathname (pre ext : BStr) (i : Nat) : BStr :=
  pre ++ [45] ++ natToDec i ++ ext

/-- Lines 165-169 of the source: the `while 1` search for a free
disambiguated pathname, made total by fuel.  Starts at counter `i`. -/
def find_free_pathname (fs : FS) (pre ext : BStr) : Nat → Nat → Option BStr
  | 0, _ => none
  | fuel + 1, i =>
    let restore_pathname := gen_restore_pathname pre ext i
    if existsFS fs restore_pathname then find_free_pathname fs pre ext fuel (i + 1)
    else some restore_pathname

/-- Lines 162-169 of the source: keep the destination if nothing exists
there, otherwise insert `-1`, `-2`, … before the extension until a free path
is found.  `fs.length + 1` rounds of fuel are enough (proved below). -/
def resolve_collision (fs : FS) (restore_pathname : BStr) : Option BStr :=
  if existsFS fs restore_pathname then
    let pe := splitextP restore_pathname
    find_free_pathname fs pe.1 pe.2 (fs.length + 1) 1
  else some restore_pathname

/-- Lines 170-175 of the source: log the destination, create its parent
directory chain if missing, rename the payload there, then delete the
metadata file.  An `OSError` from any of these steps propagates. -/
def move_to_destination (fs : FS) (pathname r_pathname restore_pathname : BStr)
    (lg : List BStr) (ev : List Event) : RRes × FS × List BStr × List Event :=
  let lg2 := lg ++ [strB "info: moving to: " ++ restore_pathname]
  let restore_dirname := dirnameP restore_pathname
  match
    (if isdirFS fs restore_dirname then .ok (fs, ev)
     else
       match makedirsFS fs restore_dirname with
       | .error e => .error e
       | .ok fs2 => .ok (fs2, ev ++ [.madeDirs restore_dirname]) : Except OSErr (FS × List Event))
  with
  | .error e => (.err (.osErr e), fs, lg2, ev)
  | .ok (fs2, ev2) =>
    match renameFS fs2 r_pathname restore_pathname with
    | .error e => (.err (.osErr e), fs2, lg2, ev2)
    | .ok fs3 =>
      match removeFS fs3 pathname with
      | .error e => (.err (.osErr e), fs3, lg2, ev2 ++ [.renamed r_pathname restore_pathname])
      | .ok fs4 => (.ok, fs4, lg2, ev2 ++ [.renamed r_pathname restore_pathname, .removed pathname])

/-- Lines 152-175 of the source: everything that happens once the metadata
record has been decoded — size validation, the conditional `utime`,
destination computation, collision resolution, and the move. -/
def restore_entry (fs : FS) (pathname r_pathname : BStr) (stat_obj : Node)
    (size deletion_filetime : Nat) (deleted_pathname restore_target_dir : BStr)
    (lg : List BStr) : RRes × FS × List BStr × List Event :=
  if S_ISREG stat_obj = true ∧ size ≠ st_size stat_obj then
    (.ok, fs, lg ++ [strB "warning: file size mismatch, not moving: " ++ r_pathname], [])
  else
    let deletion_timestamp := filetime_to_timestamp_float deletion_filetime
    match
      (if Flt.blt deletion_timestamp (st_mtime stat_obj) then
        match utimeFS fs r_pathname (st_atime stat_obj) deletion_timestamp with
        | .error e => .error e
        | .ok fs1 => .ok (fs1, [Event.utimed r_pathname])
      else .ok (fs, []) : Except OSErr (FS × List Event))
    with
    | .error e => (.err (.osErr e), fs, lg, [])
    | .ok (fs1, ev1) =>
      let restore_pathname :=
        if restore_target_dir = strB "." then deleted_pathname
        else joinP restore_target_dir deleted_pathname
      match resolve_collision fs1 restore_pathname with
      | none => (.err .fuelExhausted, fs1, lg, ev1)
      | some final_pathname => move_to_destination fs1 pathname r_pathname final_pathname lg ev1

/-- The sibling `$R` pathname of a `$I` pathname (line 144 of the source). -/
def r_pathname_of (pathname : BStr) : BStr :=
  joinP (dirnameP pathname) (strB "$R" ++ (basenameP pathname).drop 2)

/-- `process_recycle_bin_pathname`, lines 140-175 of the source.  Returns the
run result, the final filesystem, the `stderr` lines written, and the
mutation events, all accumulated from scratch for this one entry. -/
def process_recycle_bin_pathname (fs : FS) (pathname restore_target_dir : BStr) :
    RRes × FS × List BStr × List Event :=
  if startsB (basenameP pathname) (strB "$I") = false then
    (.err .expectedIPathname, fs, [], [])
  else
    let r_pathname := r_pathname_of pathname
    match lstatFS fs r_pathname with
    | .error _ => (.ok, fs, [], [])  -- `except OSError: return` — silently ignore
    | .ok stat_obj =>
      let lg := [strB "info: moving from Recycle Bin: " ++ r_pathname]
      match readFileFS fs pathname with
      | .error e => (.err e, fs, lg, [])
      | .ok content =>
        match parse_recycle_bin_i_file content with
        | .error e => (.err e, fs, lg, [])
        | .ok (size, deletion_filetime, deleted_pathname) =>
          restore_entry fs pathname r_pathname stat_obj size deletion_filetime
            deleted_pathname restore_target_dir lg

/-- Traversal state: the filesystem plus the accumulated log and events. -/
structure W where
  fs : FS
  log : List BStr
  events : List Event
  deriving DecidableEq

/-- `process_recursively`, lines 178-189 of the source: depth-first, children
in sorted order, any lstat failure silently skipped, `$I` regular files
processed.  Fuel bounds the recursion depth (the Python call stack). -/
def process_recursively : Nat → BStr → BStr → W → RRes × W
  | 0, _, _, w => (.err .fuelExhausted, w)
  | fuel + 1, pathname, restore_target_dir, w =>
    match lstatFS w.fs pathname with
    | .error _ => (.ok, w)  -- silently ignore, probably an $R file already moved
    | .ok stat_obj =>
      if S_ISDIR stat_obj then
        (sortB (listdirFS w.fs pathname)).foldl
          (fun acc entry =>
            match acc with
            | (.err e, w') => (.err e, w')
            | (.ok, w') =>
              process_recursively fuel (joinP pathname entry) restore_target_dir w')
          (.ok, w)
      else if S_ISREG stat_obj then
        if startsB (basenameP pathname) (strB "$I") then
          let out := process_recycle_bin_pathname w.fs pathname restore_target_dir
          (out.1, ⟨out.2.1, w.log ++ out.2.2.1, w.events ++ out.2.2.2⟩)
        else (.ok, w)
      else (.ok, w)

/-- The per-child step of the directory loop in `process_recursively`,
as a named function (definitionally the `foldl` body above). -/
def traverse_child (fuel : Nat) (pathname restore_target_dir : BStr)
    (acc : RRes × W) (entry : BStr) : RRes × W :=
  match acc with
  | (.err e, w') => (.err e, w')
  | (.ok, w') => process_recursively fuel (joinP pathname entry) restore_target_dir w'

/-! ## Spec-side reference definitions and concrete fixtures -/

/-- Separator-interleaved join, following the SPEC'S words ("the
backslash-delimited non-empty segments joined with the host path
separator"); defined only so it can be compared with the source's
`os.path.join`-based reconstruction. -/
def interJoin (sep : Nat) : List BStr → BStr
  | [] => []
  | [x] => x
  | x :: y :: ys => x ++ sep :: interJoin sep (y :: ys)

/-- The `original_path` that claim C2's formula prescribes for a truncated
raw pathname `t`: drive letter lower-cased, colon dropped, non-empty
backslash segments joined with `/`. -/
def spec_original_path (t : BStr) : BStr := interJoin 47 (backslash_segments t)

/-- Base-10 value of a decimal digit string (left inverse of `natToDec`). -/
def digitsVal (l : BStr) : Nat := l.foldl (fun a d => a * 10 + (d - 48)) 0

/-- UTF-16LE bytes of a BMP string (builds test records). -/
def utf16leOf (s : String) : BStr :=
  (s.data.map Char.toNat).flatMap (fun c => [c % 256, c / 256 % 256])

/-- The version-1 record of claim C2's example: a full 520-byte field holding
`C:\Users\x\f.txt` and NUL padding; declared size 10, filetime 12345. -/
def exampleV1 : BStr :=
  leBytes 8 1 ++ leBytes 8 10 ++ leBytes 8 12345 ++
    (utf16leOf "C:\\Users\\x\\f.txt" ++ [0, 0] ++ List.replicate 486 0)

/-- A version-1 record whose pathname field is only 10 bytes long
(`C:\x` plus a NUL, UTF-16LE), far short of 520. -/
def exampleShortV1 : BStr :=
  leBytes 8 1 ++ leBytes 8 5 ++ leBytes 8 7 ++ (utf16leOf "C:\\x" ++ [0, 0])

/-- A version-1 record whose pathname `C:\/e` has a backslash segment that
begins with a forward slash. -/
def exampleSlashV1 : BStr :=
  leBytes 8 1 ++ leBytes 8 3 ++ leBytes 8 4 ++ (utf16leOf "C:\\/e" ++ [0, 0])

/-- A well-formed version-1 record for `C:\out.txt`, declared size 3,
deletion filetime 0. -/
def recOut : BStr :=
  leBytes 8 1 ++ leBytes 8 3 ++ leBytes 8 0 ++ (utf16leOf "C:\\out.txt" ++ [0, 0])

/-- A record whose version field is 3. -/
def badVersionRec : BStr := leBytes 8 3 ++ leBytes 8 0 ++ leBytes 8 0

/-- A bin directory holding one valid pair; the payload is 3 bytes, matching
the declared size, and older metadata timestamps than its mtime. -/
def fsRun : FS :=
  [(strB "b", .dir ⟨0, 1⟩ ⟨0, 1⟩),
   (strB "b/$Iq", .file recOut ⟨0, 1⟩ ⟨0, 1⟩),
   (strB "b/$Rq", .file [1, 2, 3] ⟨-99, 1⟩ ⟨5, 1⟩)]

/-- A bin directory whose first (in sorted order) metadata file is malformed
while the second pair is fully valid. -/
def fsAbort : FS :=
  [(strB "bin", .dir ⟨0, 1⟩ ⟨0, 1⟩),
   (strB "bin/$Ia", .file badVersionRec ⟨0, 1⟩ ⟨0, 1⟩),
   (strB "bin/$Ra", .file [] ⟨0, 1⟩ ⟨0, 1⟩),
   (strB "bin/$Ib", .file recOut ⟨0, 1⟩ ⟨0, 1⟩),
   (strB "bin/$Rb", .file [1, 2, 3] ⟨-99, 1⟩ ⟨0, 1⟩)]

/-- A bin directory whose payload file exists but cannot be stat-ed
(`lstat` fails with EACCES, not ENOENT). -/
def fsDenied : FS :=
  [(strB "d", .dir ⟨0, 1⟩ ⟨0, 1⟩),
   (strB "d/$Ix", .file recOut ⟨0, 1⟩ ⟨0, 1⟩),
   (strB "d/$Rx", .denied)]

/-- A bin directory whose payload is 5 bytes although the record declares 3. -/
def fsMismatch : FS :=
  [(strB "d", .dir ⟨0, 1⟩ ⟨0, 1⟩),
   (strB "d/$Iy", .file recOut ⟨0, 1⟩ ⟨0, 1⟩),
   (strB "d/$Ry", .file [1, 2, 3, 4, 5] ⟨0, 1⟩ ⟨0, 1⟩)]

/-- A restore target where both `o/r.txt` and `o/r-1.txt` already exist. -/
def fsCollide : FS :=
  [(strB "o/r.txt", .file [] ⟨0, 1⟩ ⟨0, 1⟩),
   (strB "o/r-1.txt", .file [] ⟨0, 1⟩ ⟨0, 1⟩)]

/-! ## Byte-level lemmas -/

theorem length_leBytes (k v : Nat) : (leBytes k v).length = k := by
  induction k generalizing v with
  | zero => rfl
  | succ k ih => simp [leBytes, ih]

theorem leNat_leBytes (k v : Nat) : leNat (leBytes k v) = v % 2 ^ (8 * k) := by
  induction k generalizing v with
  | zero => simp [leBytes, leNat, Nat.mod_one]
  | succ k ih =>
    have hpow : (2 : Nat) ^ (8 * (k + 1)) = 256 * 2 ^ (8 * k) := by ring
    rw [leBytes, leNat, ih, hpow, Nat.mod_mul, Nat.mod_mod_of_dvd v (dvd_refl 256)]

/-- Decomposed form of the header phase on a record assembled from its three
8-byte header fields and the remaining bytes. -/
theorem read_pathname_field_mk (v s t : Nat) (rest : BStr) :
    read_pathname_field (leBytes 8 v ++ leBytes 8 s ++ leBytes 8 t ++ rest) =
      (if v % 2 ^ 64 = 1 then .ok (s % 2 ^ 64, t % 2 ^ 64, rest.take 520)
       else if v % 2 ^ 64 = 2 then
         if (rest.take 4).length ≠ 4 then .error (.format .eofPathnameSize)
         else if leNat (rest.take 4) > 4096 then .error (.format .pathnameTooLong)
         else .ok (s % 2 ^ 64, t % 2 ^ 64, (rest.drop 4).take (leNat (rest.take 4) * 2))
       else .error (.format .badVersion)) := by
  have hassoc : leBytes 8 v ++ leBytes 8 s ++ leBytes 8 t ++ rest =
      ((leBytes 8 v ++ leBytes 8 s) ++ leBytes 8 t) ++ rest := by
    simp [List.append_assoc]
  have hlen24 : ((leBytes 8 v ++ leBytes 8 s) ++ leBytes 8 t).length = 24 := by
    simp [length_leBytes]
  have htake : (((leBytes 8 v ++ leBytes 8 s) ++ leBytes 8 t) ++ rest).take 24 =
      (leBytes 8 v ++ leBytes 8 s) ++ leBytes 8 t := List.take_left' hlen24
  have hdrop : (((leBytes 8 v ++ leBytes 8 s) ++ leBytes 8 t) ++ rest).drop 24 = rest :=
    List.drop_left' hlen24
  have htake8 : ((leBytes 8 v ++ leBytes 8 s) ++ leBytes 8 t).take 8 = leBytes 8 v := by
    rw [List.append_assoc]
    exact List.take_left' (length_leBytes 8 v)
  have hdrop8 : ((leBytes 8 v ++ leBytes 8 s) ++ leBytes 8 t).drop 8 =
      leBytes 8 s ++ leBytes 8 t := by
    rw [List.append_assoc]
    exact List.drop_left' (length_leBytes 8 v)
  have hdrop16 : ((leBytes 8 v ++ leBytes 8 s) ++ leBytes 8 t).drop 16 = leBytes 8 t :=
    List.drop_left' (by simp [length_leBytes])
  have h88 : (2 : Nat) ^ 64 = 2 ^ (8 * 8) := by norm_num
  rw [hassoc]
  simp only [read_pathname_field, htake, hdrop, hlen24, htake8, hdrop8, hdrop16,
    List.take_left' (length_leBytes 8 s), leNat_leBytes, h88, if_true]

/-! ## Claim C10 -/

/-- Claim C10 (confirmed): the timestamp conversion computes
`filetime / 10_000_000 - 11_644_473_600` (the model does the two float
operations in exact rational arithmetic, which coincides with IEEE double
arithmetic on the reference pair below since every intermediate value there
is exactly representable), and FILETIME 116444736000000000 converts to Unix
timestamp 0.0. -/
theorem c10_filetime_to_timestamp :
    (∀ t : Nat, (filetime_to_timestamp_float t).toRat = (t : ℚ) / 10000000 - 11644473600) ∧
    (filetime_to_timestamp_float 116444736000000000).toRat = 0 := by
  have hmain : ∀ t : Nat,
      (filetime_to_timestamp_float t).toRat = (t : ℚ) / 10000000 - 11644473600 := by
    intro t
    simp only [filetime_to_timestamp_float, Flt.ofNat, Flt.div, Flt.sub, Flt.toRat]
    norm_num
    rw [sub_div]
    norm_num
  refine ⟨hmain, ?_⟩
  rw [hmain]
  norm_num

/-! ## Claims C7 and C8 -/

/-- The pathname phase can only fail with its own five error messages, never
with the header phase's version or length errors. -/
theorem decode_check_pathname_no_header_errors (raw : BStr) :
    decode_check_pathname raw ≠ .error (.format .badVersion) ∧
    decode_check_pathname raw ≠ .error (.format .pathnameTooLong) := by
  unfold decode_check_pathname
  cases utf16leDecode raw with
  | none => simp
  | some units =>
    simp only []
    cases truncate_at_nul (utf8Encode units) with
    | none => simp
    | some t =>
      simp only [check_deleted_pathname]
      constructor <;>
      · split
        · simp
        · split
          · simp
          · split <;> simp

/-- Claim C7, amended (the version-1 pathname read is `f.read(520)` with no
length check): the decoder consumes at most the first 520 bytes after the
24-byte header — any surplus is ignored — and it does not verify that 520
bytes are present, so a version-1 record whose field is shorter than 520
bytes is decoded from whatever bytes are there rather than rejected. -/
theorem c7_v1_field_at_most_520 (s t : Nat) (rest : BStr) :
    parse_recycle_bin_i_file (leBytes 8 1 ++ leBytes 8 s ++ leBytes 8 t ++ rest) =
      parse_recycle_bin_i_file (leBytes 8 1 ++ leBytes 8 s ++ leBytes 8 t ++ rest.take 520) := by
  unfold parse_recycle_bin_i_file
  rw [read_pathname_field_mk, read_pathname_field_mk]
  norm_num [List.take_take]

/-- Claim C7's counterexample: `exampleShortV1` provides only 10 bytes after
the 24-byte header (34 in total), yet `parse_recycle_bin_i_file` accepts it
instead of failing with a FormatError. -/
theorem c7_v1_field_at_most_520_counterexample :
    exampleShortV1.length = 34 ∧
    parse_recycle_bin_i_file exampleShortV1 = .ok (5, 7, strB "c/x") := by
  constructor
  · rfl
  · decide

/-- Claim C8 (confirmed): decoding fails with the bad-version FormatError for
every version other than 1 and 2, fails with the path-too-long FormatError
for a version-2 code-unit count above 0x1000, and a version of 1 or 2 (the
latter with a count of at most 0x1000) can produce neither of those two
errors. -/
theorem c8_version_and_count_checks :
    (∀ v s t : Nat, ∀ rest : BStr, v < 2 ^ 64 → v ≠ 1 → v ≠ 2 →
      parse_recycle_bin_i_file (leBytes 8 v ++ leBytes 8 s ++ leBytes 8 t ++ rest) =
        .error (.format .badVersion)) ∧
    (∀ s t n : Nat, ∀ rest : BStr, n < 2 ^ 32 → 4096 < n →
      parse_recycle_bin_i_file (leBytes 8 2 ++ leBytes 8 s ++ leBytes 8 t ++ (leBytes 4 n ++ rest)) =
        .error (.format .pathnameTooLong)) ∧
    (∀ s t : Nat, ∀ rest : BStr,
      parse_recycle_bin_i_file (leBytes 8 1 ++ leBytes 8 s ++ leBytes 8 t ++ rest) ≠
        .error (.format .badVersion) ∧
      parse_recycle_bin_i_file (leBytes 8 1 ++ leBytes 8 s ++ leBytes 8 t ++ rest) ≠
        .error (.format .pathnameTooLong)) ∧
    (∀ s t n : Nat, ∀ rest : BStr, n < 2 ^ 32 → n ≤ 4096 →
      parse_recycle_bin_i_file (leBytes 8 2 ++ leBytes 8 s ++ leBytes 8 t ++ (leBytes 4 n ++ rest)) ≠
        .error (.format .badVersion) ∧
      parse_recycle_bin_i_file (leBytes 8 2 ++ leBytes 8 s ++ leBytes 8 t ++ (leBytes 4 n ++ rest)) ≠
        .error (.format .pathnameTooLong)) := by
  have htake4 : ∀ (n : Nat) (rest : BStr), ((leBytes 4 n ++ rest).take 4) = leBytes 4 n :=
    fun n rest => List.take_left' (length_leBytes 4 n)
  have hdrop4 : ∀ (n : Nat) (rest : BStr), ((leBytes 4 n ++ rest).drop 4) = rest :=
    fun n rest => List.drop_left' (length_leBytes 4 n)
  have h32 : (2 : Nat) ^ 32 = 2 ^ (8 * 4) := by norm_num
  have hlen4 : ∀ n : Nat, ¬ ((leBytes 4 n).length ≠ 4) := by
    intro n
    simp [length_leBytes]
  refine ⟨?_, ?_, ?_, ?_⟩
  · intro v s t rest hv h1 h2
    unfold parse_recycle_bin_i_file
    rw [read_pathname_field_mk, Nat.mod_eq_of_lt hv]
    simp [h1, h2]
  · intro s t n rest hn hbig
    rw [h32] at hn
    unfold parse_recycle_bin_i_file
    rw [read_pathname_field_mk, htake4, leNat_leBytes, Nat.mod_eq_of_lt hn,
      if_neg (by decide : ¬ ((2 : Nat) % 2 ^ 64 = 1)), if_pos (by decide : (2 : Nat) % 2 ^ 64 = 2),
      if_neg (hlen4 n), if_pos hbig]
  · intro s t rest
    unfold parse_recycle_bin_i_file
    rw [read_pathname_field_mk, if_pos (by decide : (1 : Nat) % 2 ^ 64 = 1)]
    simp only []
    cases hd : decode_check_pathname (rest.take 520) with
    | error e =>
      have hne := decode_check_pathname_no_header_errors (rest.take 520)
      rw [hd] at hne
      simpa using hne
    | ok p => simp
  · intro s t n rest hn hsmall
    rw [h32] at hn
    unfold parse_recycle_bin_i_file
    rw [read_pathname_field_mk, htake4, hdrop4, leNat_leBytes, Nat.mod_eq_of_lt hn,
      if_neg (by decide : ¬ ((2 : Nat) % 2 ^ 64 = 1)), if_pos (by decide : (2 : Nat) % 2 ^ 64 = 2),
      if_neg (hlen4 n), if_neg (by omega : ¬ (4096 < n))]
    simp only []
    cases hd : decode_check_pathname (rest.take (n * 2)) with
    | error e =>
      have hne := decode_check_pathname_no_header_errors (rest.take (n * 2))
      rw [hd] at hne
      simpa using hne
    | ok p => simp

/-- Claim C8's witness at concrete inputs: version 3 is rejected as a bad
version, a version-2 count of 0x1001 is rejected as too long, and concrete
version-1 / version-2 records are rejected with neither of those errors. -/
theorem c8_version_and_count_checks_witness :
    parse_recycle_bin_i_file (leBytes 8 3 ++ leBytes 8 0 ++ leBytes 8 0 ++ []) =
      .error (.format .badVersion) ∧
    parse_recycle_bin_i_file (leBytes 8 2 ++ leBytes 8 0 ++ leBytes 8 0 ++ (leBytes 4 4097 ++ [])) =
      .error (.format .pathnameTooLong) ∧
    parse_recycle_bin_i_file (leBytes 8 1 ++ leBytes 8 0 ++ leBytes 8 0 ++ []) ≠
      .error (.format .badVersion) ∧
    parse_recycle_bin_i_file (leBytes 8 2 ++ leBytes 8 0 ++ leBytes 8 0 ++ (leBytes 4 8 ++ [])) ≠
      .error (.format .pathnameTooLong) :=
  ⟨c8_version_and_count_checks.1 3 0 0 [] (by norm_num) (by norm_num) (by norm_num),
   c8_version_and_count_checks.2.1 0 0 4097 [] (by norm_num) (by norm_num),
   (c8_version_and_count_checks.2.2.1 0 0 []).1,
   (c8_version_and_count_checks.2.2.2 0 0 8 [] (by norm_num) (by norm_num)).2⟩

/-! ## Claims C9 and C2 -/

theorem head?_getD_eq_headD (l : BStr) : (l.head?).getD 0 = l.headD 0 := by
  cases l <;> rfl

/-- Inversion of a successful decode: the pipeline reached a NUL-truncated
host-encoded pathname, and the drive-prefix validation accepted it. -/
theorem parse_ok_inversion (bs : BStr) (s ft : Nat) (p : BStr)
    (h : parse_recycle_bin_i_file bs = .ok (s, ft, p)) :
    ∃ t, decode_truncated bs = some t ∧ check_deleted_pathname t = .ok p := by
  unfold parse_recycle_bin_i_file at h
  cases hf : read_pathname_field bs with
  | error e => rw [hf] at h; exact absurd h (by simp)
  | ok trip =>
    obtain ⟨s', ft', raw⟩ := trip
    rw [hf] at h
    simp only [decode_check_pathname] at h
    cases hu : utf16leDecode raw with
    | none => rw [hu] at h; simp at h
    | some units =>
      rw [hu] at h
      simp only [] at h
      cases ht : truncate_at_nul (utf8Encode units) with
      | none => rw [ht] at h; simp at h
      | some t =>
        rw [ht] at h
        simp only [] at h
        refine ⟨t, ?_, ?_⟩
        · unfold decode_truncated
          rw [hf]
          simp only []
          rw [hu]
          simp only []
          exact ht
        · cases hc : check_deleted_pathname t with
          | error e => rw [hc] at h; simp at h
          | ok dp =>
            rw [hc] at h
            simp only [Except.ok.injEq, Prod.mk.injEq] at h
            obtain ⟨-, -, hdp⟩ := h
            rw [← hdp]

/-- Inversion of an accepted drive prefix: the three checks passed and the
result is the `os.path.join` reconstruction of the segments. -/
theorem check_ok_inversion (t p : BStr) (h : check_deleted_pathname t = .ok p) :
    3 ≤ t.length ∧ isAlphaByte (t.headD 0) = true ∧ (t.drop 1).take 2 = [58, 92] ∧
      p = joinListP (backslash_segments t) := by
  unfold check_deleted_pathname at h
  split at h
  · exact absurd h (by simp)
  · split at h
    · exact absurd h (by simp)
    · split at h
      · exact absurd h (by simp)
      · rename_i h1 h2 h3
        refine ⟨by omega, ?_, by simpa using h3, by simpa using h.symm⟩
        simpa using h2

/-- Claim C9 (confirmed): the decoder rejects, each with its own distinct
FormatError, a truncated pathname that is shorter than 3 bytes, one whose
first byte is not an ASCII letter, and one whose bytes 1-2 are not
colon-backslash; and every successful decode went through a truncated
pathname satisfying all three conditions. -/
theorem c9_drive_prefix_validation :
    (∀ t : BStr, t.length < 3 → check_deleted_pathname t = .error (.format .tooShort)) ∧
    (∀ t : BStr, 3 ≤ t.length → isAlphaByte (t.headD 0) = false →
      check_deleted_pathname t = .error (.format .badDriveLetter)) ∧
    (∀ t : BStr, 3 ≤ t.length → isAlphaByte (t.headD 0) = true → (t.drop 1).take 2 ≠ [58, 92] →
      check_deleted_pathname t = .error (.format .missingDriveSeparator)) ∧
    (∀ bs : BStr, ∀ s ft : Nat, ∀ p : BStr, parse_recycle_bin_i_file bs = .ok (s, ft, p) →
      ∃ t, decode_truncated bs = some t ∧ 3 ≤ t.length ∧
        isAlphaByte (t.headD 0) = true ∧ (t.drop 1).take 2 = [58, 92]) := by
  refine ⟨?_, ?_, ?_, ?_⟩
  · intro t h
    unfold check_deleted_pathname
    rw [if_pos h]
  · intro t h1 h2
    have hh : isAlphaByte ((t.head?).getD 0) = false := by
      rw [head?_getD_eq_headD]
      exact h2
    unfold check_deleted_pathname
    rw [if_neg (Nat.not_lt.mpr h1), if_pos (by simp [hh])]
  · intro t h1 h2 h3
    have hh : isAlphaByte ((t.head?).getD 0) = true := by
      rw [head?_getD_eq_headD]
      exact h2
    unfold check_deleted_pathname
    rw [if_neg (Nat.not_lt.mpr h1), if_neg (by simp [hh]), if_pos h3]
  · intro bs s ft p h
    obtain ⟨t, hdt, hc⟩ := parse_ok_inversion bs s ft p h
    obtain ⟨hl, ha, hsep, -⟩ := check_ok_inversion t p hc
    exact ⟨t, hdt, hl, ha, hsep⟩

/-- Claim C9's witness: each rejection at a concrete truncated pathname
(`"C"`, `"1:\"`, `"CCC"`), and the success condition run on the concrete
record `exampleShortV1`. -/
theorem c9_drive_prefix_validation_witness :
    check_deleted_pathname (strB "C") = .error (.format .tooShort) ∧
    check_deleted_pathname (strB "1:\\") = .error (.format .badDriveLetter) ∧
    check_deleted_pathname (strB "CCC") = .error (.format .missingDriveSeparator) ∧
    ∃ t, decode_truncated exampleShortV1 = some t ∧ 3 ≤ t.length ∧
      isAlphaByte (t.headD 0) = true ∧ (t.drop 1).take 2 = [58, 92] :=
  ⟨c9_drive_prefix_validation.1 (strB "C") (by decide),
   c9_drive_prefix_validation.2.1 (strB "1:\\") (by decide) (by decide),
   c9_drive_prefix_validation.2.2.1 (strB "CCC") (by decide) (by decide) (by decide),
   c9_drive_prefix_validation.2.2.2 exampleShortV1 5 7 (strB "c/x") (by decide)⟩

/-- Nonempty segments that neither start nor end with a slash make
`os.path.join` coincide with separator interleaving. -/
theorem joinListP_eq_interJoin (segs : List BStr)
    (h : ∀ seg ∈ segs, seg ≠ [] ∧ seg.head? ≠ some 47 ∧ seg.getLast? ≠ some 47) :
    joinListP segs = interJoin 47 segs := by
  cases segs with
  | nil => rfl
  | cons x xs =>
    have hx := h x (by simp)
    -- generalized fold invariant: the accumulator is nonempty and does not
    -- end with a slash
    suffices hgen : ∀ (ys : List BStr) (acc : BStr), acc ≠ [] → acc.getLast? ≠ some 47 →
        (∀ seg ∈ ys, seg ≠ [] ∧ seg.head? ≠ some 47 ∧ seg.getLast? ≠ some 47) →
        ys.foldl joinP acc = interJoin 47 (acc :: ys) by
      exact hgen xs x hx.1 hx.2.2 (fun seg hs => h seg (by simp [hs]))
    intro ys
    induction ys with
    | nil => intro acc _ _ _; rfl
    | cons y ys ih =>
      intro acc hne hlast hall
      have hy := hall y (by simp)
      have hjoin : joinP acc y = acc ++ 47 :: y := by
        unfold joinP
        rw [if_neg (by simp [hy.2.1]), if_neg (by simp [hne, hlast])]
      have hacc' : joinP acc y ≠ [] := by simp [hjoin]
      have hlast' : (joinP acc y).getLast? ≠ some 47 := by
        rw [hjoin]
        cases y with
        | nil => exact absurd rfl hy.1
        | cons b bs =>
          cases hgl : (b :: bs).getLast? with
          | none => simp at hgl
          | some z =>
            have hz : z ≠ 47 := fun hzz => hy.2.2 (by rw [hgl, hzz])
            have : (acc ++ 47 :: b :: bs).getLast? = some z := by
              rw [List.getLast?_append, List.getLast?_cons_cons, hgl]
              rfl
            rw [this]
            simp [hz]
      have hstep := ih (joinP acc y) hacc' hlast' (fun seg hs => hall seg (by simp [hs]))
      rw [List.foldl_cons, hstep, hjoin]
      cases ys with
      | nil => rfl
      | cons z zs => simp [interJoin, List.append_assoc]

/-- Claim C2, amended: every successful decode produces
`os.path.join(*filter(None, segments))`; that equals the claim's
"segments joined with the host path separator" whenever no segment begins or
ends with a slash (a segment beginning with a slash makes `os.path.join`
restart from it, as the counterexample shows); in particular the claim's
version-1 example decodes to `c/Users/x/f.txt`. -/
theorem c2_original_path_reconstruction :
    (∀ bs : BStr, ∀ s ft : Nat, ∀ p : BStr, parse_recycle_bin_i_file bs = .ok (s, ft, p) →
      ∃ t, decode_truncated bs = some t ∧ p = joinListP (backslash_segments t)) ∧
    (∀ t : BStr,
      (∀ seg ∈ backslash_segments t, seg.head? ≠ some 47 ∧ seg.getLast? ≠ some 47) →
      joinListP (backslash_segments t) = spec_original_path t) ∧
    parse_recycle_bin_i_file exampleV1 = .ok (10, 12345, strB "c/Users/x/f.txt") := by
  refine ⟨?_, ?_, by decide⟩
  · intro bs s ft p h
    obtain ⟨t, hdt, hc⟩ := parse_ok_inversion bs s ft p h
    exact ⟨t, hdt, (check_ok_inversion t p hc).2.2.2⟩
  · intro t hseg
    unfold spec_original_path
    apply joinListP_eq_interJoin
    intro seg hs
    refine ⟨?_, (hseg seg hs).1, (hseg seg hs).2⟩
    have := List.of_mem_filter hs
    simpa using this

/-- Claim C2's counterexample: the version-1 record for `C:\/e` decodes to
`/e` — `os.path.join` discards the drive segment when a later segment begins
with a slash — while the claim's separator-joined formula prescribes `c//e`. -/
theorem c2_original_path_reconstruction_counterexample :
    parse_recycle_bin_i_file exampleSlashV1 = .ok (3, 4, strB "/e") ∧
    decode_truncated exampleSlashV1 = some (strB "C:\\/e") ∧
    spec_original_path (strB "C:\\/e") = strB "c//e" ∧
    strB "/e" ≠ strB "c//e" := by
  refine ⟨by decide, by decide, by decide, by decide⟩

/-- Claim C2's witness: the general reconstruction statement instantiated on
the concrete record `exampleShortV1` and its truncation `C:\x`. -/
theorem c2_original_path_reconstruction_witness :
    (∃ t, decode_truncated exampleShortV1 = some t ∧
      strB "c/x" = joinListP (backslash_segments t)) ∧
    joinListP (backslash_segments (strB "C:\\x")) = spec_original_path (strB "C:\\x") :=
  ⟨c2_original_path_reconstruction.1 exampleShortV1 5 7 (strB "c/x") (by decide),
   c2_original_path_reconstruction.2.1 (strB "C:\\x") (by decide)⟩

/-! ## Filesystem lemmas -/

theorem lookupFS_eraseFS (fs : FS) (p q : BStr) :
    lookupFS (eraseFS fs p) q = if q = p then none else lookupFS fs q := by
  induction fs with
  | nil => simp [eraseFS, lookupFS]
  | cons e rest ih =>
    obtain ⟨r, n⟩ := e
    simp only [eraseFS, List.filter_cons] at *
    by_cases hrp : r = p <;> by_cases hqp : q = p <;> by_cases hrq : r = q <;>
      simp_all [lookupFS, eraseFS]

theorem lookupFS_insertFS (fs : FS) (p : BStr) (n : Node) (q : BStr) :
    lookupFS (insertFS fs p n) q = if q = p then some n else lookupFS fs q := by
  simp only [insertFS, lookupFS]
  rw [lookupFS_eraseFS]
  by_cases h : q = p
  · simp [h]
  · simp only [if_neg h, if_neg (show ¬ p = q from fun hc => h hc.symm)]

theorem lookupFS_insertFS_ne_none (fs : FS) (p : BStr) (n : Node) (q : BStr)
    (hq : lookupFS fs q ≠ none) : lookupFS (insertFS fs p n) q ≠ none := by
  rw [lookupFS_insertFS]
  by_cases h : q = p
  · rw [if_pos h]
    exact fun hc => Option.noConfusion hc
  · rw [if_neg h]
    exact hq

theorem utimeFS_preserves (fs fs' : FS) (p' : BStr) (a m : Flt)
    (h : utimeFS fs p' a m = .ok fs') (q : BStr) (hq : lookupFS fs q ≠ none) :
    lookupFS fs' q ≠ none := by
  unfold utimeFS at h
  split at h
  · exact absurd h (by simp)
  · exact absurd h (by simp)
  all_goals simp only [Except.ok.injEq] at h
  all_goals rw [← h]
  all_goals exact lookupFS_insertFS_ne_none fs p' _ q hq

theorem mkdirFS_preserves (fs fs' : FS) (p' q : BStr)
    (h : mkdirFS fs p' = .ok fs') (hq : lookupFS fs q ≠ none) :
    lookupFS fs' q ≠ none := by
  unfold mkdirFS at h
  split at h
  · exact absurd h (by simp)
  · split at h
    · simp only [Except.ok.injEq] at h
      rw [← h]
      exact lookupFS_insertFS_ne_none fs p' _ q hq
    · exact absurd h (by simp)

theorem makedirsAux_preserves (q : BStr) :
    ∀ (fuel : Nat) (name : BStr) (fs fs' : FS), makedirsAux fs fuel name = .ok fs' →
      lookupFS fs q ≠ none → lookupFS fs' q ≠ none := by
  intro fuel
  induction fuel with
  | zero => intro name fs fs' h _; exact absurd h (by simp [makedirsAux])
  | succ fuel ih =>
    intro name fs fs' h hq
    simp only [makedirsAux] at h
    generalize hHD : (if basenameP name = [] then dirnameP (dirnameP name) else dirnameP name) = hd at h
    generalize hTL : (if basenameP name = [] then basenameP (dirnameP name) else basenameP name) = tl at h
    by_cases hcond : hd ≠ [] ∧ tl ≠ [] ∧ existsFS fs hd = false
    · rw [if_pos hcond] at h
      cases hrec : makedirsAux fs fuel hd with
      | error e =>
        rw [hrec] at h
        cases e with
        | alreadyExists =>
          simp only [] at h
          split at h
          · simp only [Except.ok.injEq] at h
            rw [← h]
            exact hq
          · exact mkdirFS_preserves fs fs' name q h hq
        | notFound => simp at h
        | permissionDenied => simp at h
        | isDirectory => simp at h
        | other => simp at h
      | ok fs1 =>
        rw [hrec] at h
        simp only [] at h
        have hfs1 := ih hd fs fs1 hrec hq
        split at h
        · simp only [Except.ok.injEq] at h
          rw [← h]
          exact hfs1
        · exact mkdirFS_preserves fs1 fs' name q h hfs1
    · rw [if_neg hcond] at h
      exact mkdirFS_preserves fs fs' name q h hq

theorem renameFS_preserves (fs fs' : FS) (src dst q : BStr)
    (h : renameFS fs src dst = .ok fs') (hqs : q ≠ src) (hq : lookupFS fs q ≠ none) :
    lookupFS fs' q ≠ none := by
  unfold renameFS at h
  split at h
  · exact absurd h (by simp)
  · exact absurd h (by simp)
  · split at h
    · exact absurd h (by simp)
    · exact absurd h (by simp)
    · split at h
      · simp only [Except.ok.injEq] at h
        rw [← h, lookupFS_insertFS]
        by_cases hd : q = dst
        · rw [if_pos hd]
          exact fun hc => Option.noConfusion hc
        · rw [if_neg hd, lookupFS_eraseFS, if_neg hqs]
          exact hq
      · exact absurd h (by simp)

/-! ## Claims C3 and C4 -/

/-- The `info: moving to:` line is logged no matter how the final move phase
ends. -/
theorem move_to_destination_log (fs : FS) (pathname r rp : BStr)
    (lg : List BStr) (ev : List Event) :
    (move_to_destination fs pathname r rp lg ev).2.2.1 =
      lg ++ [strB "info: moving to: " ++ rp] := by
  simp only [move_to_destination]
  repeat' split
  all_goals rfl

/-- Whatever happens after a record was decoded, the already-written log
lines persist. -/
theorem restore_entry_log (fs : FS) (pathname r : BStr) (st : Node)
    (size ft : Nat) (dp rtd : BStr) (lg : List BStr) :
    ∃ suffix, (restore_entry fs pathname r st size ft dp rtd lg).2.2.1 = lg ++ suffix := by
  simp only [restore_entry]
  repeat' split
  all_goals first
    | exact ⟨_, rfl⟩
    | exact ⟨[], (List.append_nil lg).symm⟩
    | exact ⟨_, move_to_destination_log _ _ _ _ _ _⟩

/-- Claim C3, amended: the per-entry processor silently skips — returning
normally with no log line, no event and an unchanged filesystem — whenever
`os.lstat` on the sibling `$R` pathname fails with ANY `OSError`, not only
the not-found case (`except OSError: return` catches them all); conversely,
when the lstat succeeds the entry is never silent (an `info` line is always
written).  The traversal's own lstat likewise swallows every `OSError`. -/
theorem c3_any_oserror_silently_skipped :
    (∀ fs : FS, ∀ p rtd : BStr, ∀ e : OSErr,
      startsB (basenameP p) (strB "$I") = true →
      lstatFS fs (r_pathname_of p) = .error e →
      process_recycle_bin_pathname fs p rtd = (.ok, fs, [], [])) ∧
    (∀ fs : FS, ∀ p rtd : BStr, ∀ st : Node,
      startsB (basenameP p) (strB "$I") = true →
      lstatFS fs (r_pathname_of p) = .ok st →
      (process_recycle_bin_pathname fs p rtd).2.2.1 ≠ []) ∧
    (∀ fuel : Nat, ∀ p rtd : BStr, ∀ w : W, ∀ e : OSErr,
      lstatFS w.fs p = .error e →
      process_recursively (fuel + 1) p rtd w = (.ok, w)) := by
  refine ⟨?_, ?_, ?_⟩
  · intro fs p rtd e h1 h2
    unfold process_recycle_bin_pathname
    rw [if_neg (by simp [h1])]
    simp only [h2]
  · intro fs p rtd st h1 h2
    unfold process_recycle_bin_pathname
    rw [if_neg (by simp [h1])]
    simp only [h2]
    cases hr : readFileFS fs p with
    | error e => simp [hr]
    | ok content =>
      simp only [hr]
      cases hp : parse_recycle_bin_i_file content with
      | error e => simp [hp]
      | ok trip =>
        obtain ⟨size, ft, dp⟩ := trip
        simp only [hp]
        obtain ⟨suffix, hs⟩ := restore_entry_log fs p (r_pathname_of p) st size ft dp rtd
          [strB "info: moving from Recycle Bin: " ++ r_pathname_of p]
        rw [hs]
        simp
  · intro fuel p rtd w e h
    unfold process_recursively
    rw [h]

/-- Claim C3's counterexample: in `fsDenied` the payload `d/$Rx` exists but
its lstat fails with EACCES (not not-found), and the entry is still skipped
silently — no log, no event, no filesystem change. -/
theorem c3_any_oserror_silently_skipped_counterexample :
    lstatFS fsDenied (strB "d/$Rx") = .error .permissionDenied ∧
    process_recycle_bin_pathname fsDenied (strB "d/$Ix") (strB ".") =
      (.ok, fsDenied, [], []) := by
  refine ⟨by decide, by decide⟩

/-- Claim C3's witness: the amended theorem applied to `fsDenied` (EACCES)
and to a traversal of a vanished pathname. -/
theorem c3_any_oserror_silently_skipped_witness :
    process_recycle_bin_pathname fsDenied (strB "d/$Ix") (strB ".") = (.ok, fsDenied, [], []) ∧
    process_recursively 3 (strB "gone") (strB ".") ⟨fsDenied, [], []⟩ = (.ok, ⟨fsDenied, [], []⟩) :=
  ⟨c3_any_oserror_silently_skipped.1 fsDenied (strB "d/$Ix") (strB ".") .permissionDenied
      (by decide) (by decide),
   c3_any_oserror_silently_skipped.2.2 2 (strB "gone") (strB ".") ⟨fsDenied, [], []⟩ .notFound
      (by decide)⟩

/-- Claim C4 (confirmed): when the payload is a regular file whose size
differs from the declared size, the run writes the warning line and stops
this entry with the filesystem untouched and no mutation event — the `$I`
and `$R` files stay in place. -/
theorem c4_size_mismatch_no_mutation (fs : FS) (p rtd : BStr) (st : Node)
    (content : BStr) (size ft : Nat) (dp : BStr)
    (h1 : startsB (basenameP p) (strB "$I") = true)
    (h2 : lstatFS fs (r_pathname_of p) = .ok st)
    (h3 : readFileFS fs p = .ok content)
    (h4 : parse_recycle_bin_i_file content = .ok (size, ft, dp))
    (h5 : S_ISREG st = true) (h6 : size ≠ st_size st) :
    process_recycle_bin_pathname fs p rtd =
      (.ok, fs,
       [strB "info: moving from Recycle Bin: " ++ r_pathname_of p,
        strB "warning: file size mismatch, not moving: " ++ r_pathname_of p],
       []) := by
  unfold process_recycle_bin_pathname
  rw [if_neg (by simp [h1])]
  simp only [h2, h3, h4]
  unfold restore_entry
  rw [if_pos ⟨h5, h6⟩]
  rfl

/-- Claim C4's witness: the concrete mismatch pair in `fsMismatch` (declared
size 3, actual payload 5 bytes). -/
theorem c4_size_mismatch_no_mutation_witness :
    process_recycle_bin_pathname fsMismatch (strB "d/$Iy") (strB "out") =
      (.ok, fsMismatch,
       [strB "info: moving from Recycle Bin: " ++ r_pathname_of (strB "d/$Iy"),
        strB "warning: file size mismatch, not moving: " ++ r_pathname_of (strB "d/$Iy")],
       []) :=
  c4_size_mismatch_no_mutation fsMismatch (strB "d/$Iy") (strB "out")
    (.file [1, 2, 3, 4, 5] ⟨0, 1⟩ ⟨0, 1⟩) recOut 3 0 (strB "c/out.txt")
    (by decide) (by decide) (by decide) (by decide) (by decide) (by decide)

/-! ## Claim C1 -/

/-- Once the per-child loop has hit an error, the remaining children are
never touched. -/
theorem traverse_child_absorb (fuel : Nat) (dir rtd : BStr) (e : Err) (w : W)
    (l : List BStr) :
    List.foldl (traverse_child fuel dir rtd) (.err e, w) l = (.err e, w) := by
  induction l with
  | nil => rfl
  | cons x xs ih =>
    rw [List.foldl_cons]
    exact ih

/-- Claim C1, amended: a FormatError raised while decoding one metadata
entry is NOT caught by the orchestrator.  The per-entry processor returns it
(after the `info` line, with no mutation), the directory loop stops at the
failing child — the remaining children are never visited — and the error
propagates out of the traversal, aborting the whole run. -/
theorem c1_format_error_aborts_run :
    (∀ fs : FS, ∀ p rtd : BStr, ∀ st : Node, ∀ content : BStr, ∀ e : Err,
      startsB (basenameP p) (strB "$I") = true →
      lstatFS fs (r_pathname_of p) = .ok st →
      readFileFS fs p = .ok content →
      parse_recycle_bin_i_file content = .error e →
      process_recycle_bin_pathname fs p rtd =
        (.err e, fs, [strB "info: moving from Recycle Bin: " ++ r_pathname_of p], [])) ∧
    (∀ fuel : Nat, ∀ dir rtd : BStr, ∀ w w' : W, ∀ e : Err, ∀ l1 l2 : List BStr,
      List.foldl (traverse_child fuel dir rtd) (.ok, w) l1 = (.err e, w') →
      List.foldl (traverse_child fuel dir rtd) (.ok, w) (l1 ++ l2) = (.err e, w')) ∧
    (∀ fuel : Nat, ∀ p rtd : BStr, ∀ w : W, ∀ st : Node,
      lstatFS w.fs p = .ok st → S_ISDIR st = true →
      process_recursively (fuel + 1) p rtd w =
        List.foldl (traverse_child fuel p rtd) (.ok, w) (sortB (listdirFS w.fs p))) := by
  refine ⟨?_, ?_, ?_⟩
  · intro fs p rtd st content e h1 h2 h3 h4
    unfold process_recycle_bin_pathname
    rw [if_neg (by simp [h1])]
    simp only [h2, h3, h4]
  · intro fuel dir rtd w w' e l1 l2 h
    rw [List.foldl_append, h, traverse_child_absorb]
  · intro fuel p rtd w st h1 h2
    unfold process_recursively
    rw [h1]
    simp only [h2, if_true]
    rfl

/-- Claim C1's counterexample: running the traversal on `fsAbort` — whose
sorted first metadata entry `bin/$Ia` is malformed while `bin/$Ib`/`bin/$Rb`
form a fully valid pair — aborts the whole run with the FormatError: nothing
is logged beyond the first `info` line, no mutation happens, and the valid
pair is left unrestored rather than being processed after the bad entry. -/
theorem c1_format_error_aborts_run_counterexample :
    process_recursively 5 (strB "bin") (strB ".") ⟨fsAbort, [], []⟩ =
      (.err (.format .badVersion),
       ⟨fsAbort, [strB "info: moving from Recycle Bin: bin/$Ra"], []⟩) ∧
    lookupFS fsAbort (strB "bin/$Ib") ≠ none := by
  refine ⟨by decide, by decide⟩

/-- Claim C1's witness: the amended theorem applied to the malformed entry of
`fsAbort` and to a concrete child list whose first element fails. -/
theorem c1_format_error_aborts_run_witness :
    process_recycle_bin_pathname fsAbort (strB "bin/$Ia") (strB ".") =
      (.err (.format .badVersion), fsAbort,
       [strB "info: moving from Recycle Bin: " ++ r_pathname_of (strB "bin/$Ia")], []) ∧
    List.foldl (traverse_child 4 (strB "bin") (strB ".")) (.ok, ⟨fsAbort, [], []⟩)
        ([strB "$Ia"] ++ [strB "$Ib", strB "$Ra", strB "$Rb"]) =
      (.err (.format .badVersion),
       ⟨fsAbort, [strB "info: moving from Recycle Bin: bin/$Ra"], []⟩) :=
  ⟨c1_format_error_aborts_run.1 fsAbort (strB "bin/$Ia") (strB ".")
      (.file [] ⟨0, 1⟩ ⟨0, 1⟩) badVersionRec (.format .badVersion)
      (by decide) (by decide) (by decide) (by decide),
   c1_format_error_aborts_run.2.1 4 (strB "bin") (strB ".") ⟨fsAbort, [], []⟩
      ⟨fsAbort, [strB "info: moving from Recycle Bin: bin/$Ra"], []⟩
      (.format .badVersion) [strB "$Ia"] [strB "$Ib", strB "$Ra", strB "$Rb"]
      (by decide)⟩

/-! ## Claim C6 -/

theorem digitsVal_append_digit (l : BStr) (d : Nat) :
    digitsVal (l ++ [d]) = digitsVal l * 10 + (d - 48) := by
  simp [digitsVal, List.foldl_append]

theorem digitsVal_natToDecAux (fuel : Nat) :
    ∀ n : Nat, n < fuel → digitsVal (natToDecAux fuel n) = n := by
  induction fuel with
  | zero => intro n h; omega
  | succ fuel ih =>
    intro n h
    rw [natToDecAux]
    split
    · rename_i hn
      simp [digitsVal]
    · rename_i hn
      rw [digitsVal_append_digit, ih (n / 10) (by omega)]
      omega

theorem digitsVal_natToDec (n : Nat) : digitsVal (natToDec n) = n :=
  digitsVal_natToDecAux (n + 1) n (by omega)

theorem gen_restore_pathname_injective (pre ext : BStr) (i j : Nat)
    (h : gen_restore_pathname pre ext i = gen_restore_pathname pre ext j) : i = j := by
  unfold gen_restore_pathname at h
  simp only [List.append_assoc] at h
  have h1 := List.append_cancel_left h
  have h2 := List.append_cancel_left h1
  have h3 := List.append_cancel_right h2
  calc i = digitsVal (natToDec i) := (digitsVal_natToDec i).symm
    _ = digitsVal (natToDec j) := by rw [h3]
    _ = j := digitsVal_natToDec j

theorem lookupFS_mem (fs : FS) (q : BStr) (n : Node) (h : lookupFS fs q = some n) :
    q ∈ fs.map Prod.fst := by
  induction fs with
  | nil => simp [lookupFS] at h
  | cons e rest ih =>
    obtain ⟨r, m⟩ := e
    simp only [lookupFS] at h
    by_cases hr : r = q
    · simp [hr]
    · rw [if_neg hr] at h
      simp [ih h]

theorem existsFS_mem (fs : FS) (q : BStr) (h : existsFS fs q = true) :
    q ∈ fs.map Prod.fst := by
  unfold existsFS at h
  cases hl : lookupFS fs q with
  | none => rw [hl] at h; simp at h
  | some n => exact lookupFS_mem fs q n hl

theorem nodup_subset_length {l1 l2 : List BStr} (h : l1.Nodup) (hs : l1 ⊆ l2) :
    l1.length ≤ l2.length := by
  have h1 : l1.toFinset.card = l1.length := List.toFinset_card_of_nodup h
  have h2 : l1.toFinset ⊆ l2.toFinset := by
    intro x hx
    simp only [List.mem_toFinset] at hx ⊢
    exact hs hx
  calc l1.length = l1.toFinset.card := h1.symm
    _ ≤ l2.toFinset.card := Finset.card_le_card h2
    _ ≤ l2.length := List.toFinset_card_le l2

/-- If the collision loop runs out of fuel, every candidate it inspected was
an existing path. -/
theorem find_free_pathname_none (fs : FS) (pre ext : BStr) :
    ∀ (fuel i0 : Nat), find_free_pathname fs pre ext fuel i0 = none →
      ∀ j, i0 ≤ j → j < i0 + fuel →
        existsFS fs (gen_restore_pathname pre ext j) = true := by
  intro fuel
  induction fuel with
  | zero => intro i0 h j h1 h2; omega
  | succ fuel ih =>
    intro i0 h j h1 h2
    simp only [find_free_pathname] at h
    split at h
    · rename_i hex
      by_cases hj : j = i0
      · rw [hj]; exact hex
      · exact ih (i0 + 1) h j (by omega) (by omega)
    · exact absurd h (by simp)

/-- What the collision loop returns is the FIRST free candidate: every
earlier counter value named an existing path. -/
theorem find_free_pathname_some (fs : FS) (pre ext : BStr) :
    ∀ (fuel i0 : Nat) (q : BStr), find_free_pathname fs pre ext fuel i0 = some q →
      ∃ i, i0 ≤ i ∧ q = gen_restore_pathname pre ext i ∧ existsFS fs q = false ∧
        ∀ j, i0 ≤ j → j < i → existsFS fs (gen_restore_pathname pre ext j) = true := by
  intro fuel
  induction fuel with
  | zero => intro i0 q h; exact absurd h (by simp [find_free_pathname])
  | succ fuel ih =>
    intro i0 q h
    simp only [find_free_pathname] at h
    split at h
    · rename_i hex
      obtain ⟨i, hi1, hi2, hi3, hi4⟩ := ih (i0 + 1) q h
      refine ⟨i, by omega, hi2, hi3, ?_⟩
      intro j hj1 hj2
      by_cases hj : j = i0
      · rw [hj]; exact hex
      · exact hi4 j (by omega) hj2
    · rename_i hex
      simp only [Option.some.injEq] at h
      refine ⟨i0, le_refl _, h.symm, ?_, by omega⟩
      rw [← h]
      simpa using hex

/-- Pigeonhole: `fs.length + 1` distinct candidate pathnames cannot all be
existing keys of `fs`, so the collision loop's fuel always suffices. -/
theorem find_free_pathname_ne_none (fs : FS) (pre ext : BStr) :
    find_free_pathname fs pre ext (fs.length + 1) 1 ≠ none := by
  intro hf
  have hall := find_free_pathname_none fs pre ext (fs.length + 1) 1 hf
  have hsub : (List.range' 1 (fs.length + 1)).map (gen_restore_pathname pre ext) ⊆
      fs.map Prod.fst := by
    intro x hx
    simp only [List.mem_map, List.mem_range'_1] at hx
    obtain ⟨j, hj, rfl⟩ := hx
    exact existsFS_mem fs _ (hall j (by omega) (by omega))
  have hnd : ((List.range' 1 (fs.length + 1)).map (gen_restore_pathname pre ext)).Nodup := by
    refine List.Nodup.map ?_ (List.nodup_range' 1 (fs.length + 1))
    intro a b hab
    exact gen_restore_pathname_injective pre ext a b hab
  have hlen := nodup_subset_length hnd hsub
  simp [List.length_range'] at hlen

/-- Claim C6 (confirmed): when the computed destination does not exist it is
used unchanged; when it does exist the final destination is
`prefix-i.ext` for the LEAST counter `i ≥ 1` whose path does not exist —
every smaller positive counter named an existing path. -/
theorem c6_collision_resolution (fs : FS) (p : BStr) :
    (existsFS fs p = false → resolve_collision fs p = some p) ∧
    (existsFS fs p = true →
      ∃ q i, resolve_collision fs p = some q ∧ 1 ≤ i ∧
        q = gen_restore_pathname (splitextP p).1 (splitextP p).2 i ∧
        existsFS fs q = false ∧
        ∀ j, 1 ≤ j → j < i →
          existsFS fs (gen_restore_pathname (splitextP p).1 (splitextP p).2 j) = true) := by
  constructor
  · intro h
    simp only [resolve_collision]
    rw [if_neg (by simp [h])]
  · intro h
    simp only [resolve_collision]
    rw [if_pos h]
    cases hf : find_free_pathname fs (splitextP p).1 (splitextP p).2 (fs.length + 1) 1 with
    | none => exact absurd hf (find_free_pathname_ne_none fs _ _)
    | some q =>
      obtain ⟨i, hi1, hi2, hi3, hi4⟩ :=
        find_free_pathname_some fs (splitextP p).1 (splitextP p).2 (fs.length + 1) 1 q hf
      exact ⟨q, i, rfl, hi1, hi2, hi3, fun j hj1 hj2 => hi4 j hj1 hj2⟩

/-- Claim C6's witness: in `fsCollide` both `o/r.txt` and `o/r-1.txt` exist,
and the theorem yields the least free disambiguated destination. -/
theorem c6_collision_resolution_witness :
    ∃ q i, resolve_collision fsCollide (strB "o/r.txt") = some q ∧ 1 ≤ i ∧
      q = gen_restore_pathname (splitextP (strB "o/r.txt")).1 (splitextP (strB "o/r.txt")).2 i ∧
      existsFS fsCollide q = false ∧
      ∀ j, 1 ≤ j → j < i →
        existsFS fsCollide
          (gen_restore_pathname (splitextP (strB "o/r.txt")).1 (splitextP (strB "o/r.txt")).2 j) =
          true :=
  (c6_collision_resolution fsCollide (strB "o/r.txt")).2 (by decide)

/-! ## Claim C5 -/

theorem not_mem_basenameP (p : BStr) : 47 ∉ basenameP p := by
  intro h
  unfold basenameP at h
  rw [List.mem_reverse] at h
  have := List.mem_takeWhile_imp h
  simp at this

theorem takeWhile_append_of_all (pr : Nat → Bool) (l1 l2 : List Nat)
    (h : ∀ x ∈ l1, pr x = true) :
    List.takeWhile pr (l1 ++ l2) = l1 ++ List.takeWhile pr l2 := by
  induction l1 with
  | nil => simp
  | cons x xs ih =>
    simp only [List.cons_append, List.takeWhile_cons]
    rw [h x (by simp)]
    simp only [if_true, List.cons.injEq, true_and]
    exact ih (fun y hy => h y (by simp [hy]))

theorem basenameP_joinP (d n : BStr) (hn : n ≠ []) (hns : 47 ∉ n) :
    basenameP (joinP d n) = n := by
  have hrev : ∀ x ∈ n.reverse, (fun b => decide (b ≠ 47)) x = true := by
    intro x hx
    simp only [decide_eq_true_eq]
    intro hc
    exact hns (hc ▸ List.mem_reverse.mp hx)
  have hhead : ¬ (n.head? = some 47) := by
    cases n with
    | nil => simp
    | cons b bs =>
      simp only [List.head?, Option.some.injEq]
      intro hc
      exact hns (by simp [hc])
  unfold joinP
  rw [if_neg hhead]
  split
  · rename_i hd
    unfold basenameP
    rw [List.reverse_append, takeWhile_append_of_all _ _ _ hrev]
    rcases hd with hd | hd
    · subst hd
      simp
    · have : d.reverse.head? = some 47 := by rw [List.head?_reverse]; exact hd
      cases hdr : d.reverse with
      | nil => rw [hdr] at this; simp at this
      | cons c cs =>
        rw [hdr] at this
        simp only [List.head?, Option.some.injEq] at this
        rw [List.takeWhile_cons, this]
        simp
  · unfold basenameP
    rw [show d ++ 47 :: n = d ++ ([47] ++ n) from rfl, ← List.append_assoc,
      List.reverse_append, takeWhile_append_of_all _ _ _ hrev, List.reverse_append]
    simp [List.takeWhile_cons]

/-- The sibling `$R` pathname differs from the `$I` pathname itself. -/
theorem r_pathname_of_ne (p : BStr) (h : startsB (basenameP p) (strB "$I") = true) :
    r_pathname_of p ≠ p := by
  intro hc
  have hb : basenameP (r_pathname_of p) = basenameP p := by rw [hc]
  unfold r_pathname_of at hb
  have hnoslash : (47 : Nat) ∉ strB "$R" ++ (basenameP p).drop 2 := by
    intro hm
    rcases List.mem_append.mp hm with h1 | h1
    · simp [strB] at h1
    · exact not_mem_basenameP p (List.mem_of_mem_drop h1)
  have hne : strB "$R" ++ (basenameP p).drop 2 ≠ [] := by simp [strB]
  rw [basenameP_joinP _ _ hne hnoslash] at hb
  have hstart : (basenameP p).take 2 = [36, 73] := by simpa [startsB, strB] using h
  rw [← hb] at hstart
  have : (strB "$R" ++ (basenameP p).drop 2).take 2 = strB "$R" :=
    List.take_left' (by simp [strB])
  rw [this] at hstart
  simp [strB] at hstart

/-- The move phase records the removal of the metadata file only as the last
event, directly after the successful rename, and leaves the metadata file in
place on every other outcome. -/
theorem move_to_destination_spec (fs : FS) (pathname r rp : BStr) (lg : List BStr)
    (ev : List Event) (hnr : pathname ≠ r) (hev : Event.removed pathname ∉ ev) :
    (Event.removed pathname ∈ (move_to_destination fs pathname r rp lg ev).2.2.2 →
      (move_to_destination fs pathname r rp lg ev).1 = .ok ∧
      ∃ pre, (move_to_destination fs pathname r rp lg ev).2.2.2 =
        pre ++ [Event.renamed r rp, Event.removed pathname]) ∧
    (Event.removed pathname ∉ (move_to_destination fs pathname r rp lg ev).2.2.2 →
      lookupFS fs pathname ≠ none →
      lookupFS (move_to_destination fs pathname r rp lg ev).2.1 pathname ≠ none) := by
  simp only [move_to_destination]
  split
  · -- makedirs failed: no event beyond ev, filesystem unchanged
    constructor
    · intro hmem
      exact absurd hmem hev
    · intro _ hl
      exact hl
  · rename_i out fs2 ev2 heq
    -- relate fs2 / ev2 to fs / ev through the mkdir step
    have hstep : (lookupFS fs pathname ≠ none → lookupFS fs2 pathname ≠ none) ∧
        Event.removed pathname ∉ ev2 := by
      split at heq
      · simp only [Except.ok.injEq, Prod.mk.injEq] at heq
        obtain ⟨h1, h2⟩ := heq
        rw [← h1, ← h2]
        exact ⟨fun hl => hl, hev⟩
      · revert heq
        cases hmd : makedirsFS fs (dirnameP rp) with
        | error e => intro heq; exact absurd heq (by simp)
        | ok fs2' =>
          intro heq
          simp only [Except.ok.injEq, Prod.mk.injEq] at heq
          obtain ⟨h1, h2⟩ := heq
          rw [← h1, ← h2]
          constructor
          · intro hl
            exact makedirsAux_preserves pathname _ _ fs fs2' hmd hl
          · simp [hev]
    split
    · -- rename failed
      constructor
      · intro hmem
        exact absurd hmem hstep.2
      · intro _ hl
        exact hstep.1 hl
    · rename_i fs3 heq2
      split
      · -- remove failed after a successful rename
        constructor
        · intro hmem
          simp only [List.mem_append, List.mem_singleton] at hmem
          rcases hmem with hmem | hmem
          · exact absurd hmem hstep.2
          · exact absurd hmem (by simp)
        · intro _ hl
          exact renameFS_preserves fs2 fs3 r rp pathname heq2 hnr (hstep.1 hl)
      · -- full success: events end with the rename followed by the removal
        constructor
        · intro _
          exact ⟨rfl, ev2, by simp⟩
        · intro hmem
          exact absurd (by simp : Event.removed pathname ∈ ev2 ++
            [Event.renamed r rp, Event.removed pathname]) hmem

/-- Same property lifted over the size check, the conditional `utime` and the
collision resolution. -/
theorem restore_entry_spec (fs : FS) (pathname r : BStr) (st : Node)
    (size ft : Nat) (dp rtd : BStr) (lg : List BStr) (hnr : pathname ≠ r) :
    (Event.removed pathname ∈ (restore_entry fs pathname r st size ft dp rtd lg).2.2.2 →
      (restore_entry fs pathname r st size ft dp rtd lg).1 = .ok ∧
      ∃ pre d, (restore_entry fs pathname r st size ft dp rtd lg).2.2.2 =
        pre ++ [Event.renamed r d, Event.removed pathname]) ∧
    (Event.removed pathname ∉ (restore_entry fs pathname r st size ft dp rtd lg).2.2.2 →
      lookupFS fs pathname ≠ none →
      lookupFS (restore_entry fs pathname r st size ft dp rtd lg).2.1 pathname ≠ none) := by
  simp only [restore_entry]
  split
  · -- size mismatch: no events, filesystem unchanged
    exact ⟨fun hmem => absurd hmem (by simp), fun _ hl => hl⟩
  · split
    · -- utime failed: no events, filesystem unchanged
      exact ⟨fun hmem => absurd hmem (by simp), fun _ hl => hl⟩
    · rename_i out fs1 ev1 heq
      -- relate fs1 / ev1 to fs through the utime step
      have hstep : (lookupFS fs pathname ≠ none → lookupFS fs1 pathname ≠ none) ∧
          Event.removed pathname ∉ ev1 := by
        split at heq
        · revert heq
          cases hut : utimeFS fs r (st_atime st) (filetime_to_timestamp_float ft) with
          | error e => intro heq; exact absurd heq (by simp)
          | ok fs1' =>
            intro heq
            simp only [Except.ok.injEq, Prod.mk.injEq] at heq
            obtain ⟨h1, h2⟩ := heq
            rw [← h1, ← h2]
            exact ⟨fun hl => utimeFS_preserves fs fs1' r _ _ hut pathname hl, by simp⟩
        · simp only [Except.ok.injEq, Prod.mk.injEq] at heq
          obtain ⟨h1, h2⟩ := heq
          rw [← h1, ← h2]
          exact ⟨fun hl => hl, by simp⟩
      split
      · -- collision fuel exhausted: no further events, fs1 returned
        exact ⟨fun hmem => absurd hmem hstep.2, fun _ hl => hstep.1 hl⟩
      · rename_i final heq2
        have hmove := move_to_destination_spec fs1 pathname r final lg ev1 hnr hstep.2
        exact ⟨fun hmem => ⟨(hmove.1 hmem).1,
            (hmove.1 hmem).2.elim (fun pre hpre => ⟨pre, final, hpre⟩)⟩,
          fun hmem hl => hmove.2 hmem (hstep.1 hl)⟩

/-- Claim C5 (confirmed): in every per-entry run, the event trace contains
the removal of the metadata file only as the final event, immediately after
a successful rename of the payload, and then the run result is success; on
every path where no removal event was recorded the metadata file is still
present afterwards whenever it was present before. -/
theorem c5_metadata_removed_only_after_rename (fs : FS) (p rtd : BStr) :
    (Event.removed p ∈ (process_recycle_bin_pathname fs p rtd).2.2.2 →
      (process_recycle_bin_pathname fs p rtd).1 = .ok ∧
      ∃ pre d, (process_recycle_bin_pathname fs p rtd).2.2.2 =
        pre ++ [Event.renamed (r_pathname_of p) d, Event.removed p]) ∧
    (Event.removed p ∉ (process_recycle_bin_pathname fs p rtd).2.2.2 →
      lookupFS fs p ≠ none →
      lookupFS (process_recycle_bin_pathname fs p rtd).2.1 p ≠ none) := by
  simp only [process_recycle_bin_pathname]
  split
  · exact ⟨fun hmem => absurd hmem (by simp), fun _ hl => hl⟩
  · rename_i hstart
    have hs : startsB (basenameP p) (strB "$I") = true := by
      revert hstart
      cases startsB (basenameP p) (strB "$I") <;> simp
    have hnr : p ≠ r_pathname_of p := fun hc => r_pathname_of_ne p hs hc.symm
    split
    · exact ⟨fun hmem => absurd hmem (by simp), fun _ hl => hl⟩
    · split
      · exact ⟨fun hmem => absurd hmem (by simp), fun _ hl => hl⟩
      · split
        · exact ⟨fun hmem => absurd hmem (by simp), fun _ hl => hl⟩
        · exact restore_entry_spec fs p (r_pathname_of p) _ _ _ _ rtd _ hnr

/-- Claim C5's witness: the fully successful run on `fsRun` removes
`b/$Iq` as its final event, right after the rename, with result `ok`. -/
theorem c5_metadata_removed_only_after_rename_witness :
    Event.removed (strB "b/$Iq") ∈
      (process_recycle_bin_pathname fsRun (strB "b/$Iq") (strB ".")).2.2.2 ∧
    (process_recycle_bin_pathname fsRun (strB "b/$Iq") (strB ".")).1 = .ok ∧
    ∃ pre d, (process_recycle_bin_pathname fsRun (strB "b/$Iq") (strB ".")).2.2.2 =
      pre ++ [Event.renamed (r_pathname_of (strB "b/$Iq")) d, Event.removed (strB "b/$Iq")] :=
  ⟨by decide,
   (c5_metadata_removed_only_after_rename fsRun (strB "b/$Iq") (strB ".")).1 (by decide)⟩

end RecycleFromBin
